import Mathlib

/-!
Verification of the Unit09-Builder job pipeline and entity model.

The definitions below are shallow embeddings of the TypeScript sources:
the in-memory job queue (services/worker queue/jobQueue.ts), the worker
tick loop (services/worker/src/index.ts), fork lineage and repo-tag
normalization (packages/shared-types/src/repo.ts), lifecycle events,
semantic versions and metrics JSON codecs
(packages/shared-types/src/metrics.ts), and a spec-modelled fork store
for the on-chain createFork instruction. Timestamps (Date.now()) are
passed in explicitly as naturals; JS object mutation through a reference
into the jobs array is modelled as replacement at the job's index.
-/

namespace Unit09

/-! ### Job queue data model (worker/src/queue/jobTypes.ts) -/

inductive JobType
  | observeRepo
  | analyzeRepo
  | decompose
  | generateModules
  | validateModules
  | syncOnChain
  | forkEvolution
  deriving DecidableEq, Repr

/-- Payloads all extend BaseJobPayload (a repoKey); observe/analyze/…
carry a pipeline source and forkEvolution carries a fork id. -/
structure JobPayload where
  repoKey : String
  source : Option String := none
  forkId : Option String := none
  deriving DecidableEq, Repr

structure JobResult where
  success : Bool
  error : Option String := none
  output : Option String := none
  deriving DecidableEq, Repr

structure Job where
  id : String
  type : JobType
  payload : JobPayload
  createdAt : Nat
  startedAt : Option Nat := none
  completedAt : Option Nat := none
  attempts : Nat
  maxAttempts : Nat
  deriving DecidableEq, Repr

/-! ### In-memory job queue (worker/src/queue/jobQueue.ts)

The module-level `jobs` array and `results` record become a state
record; `results[job.id] = result` is an overwrite-or-append update. -/

structure QueueState where
  jobs : List Job
  results : List (String × JobResult)
  deriving DecidableEq, Repr

def setResult : List (String × JobResult) → String → JobResult → List (String × JobResult)
  | [], k, v => [(k, v)]
  | (k0, v0) :: rest, k, v =>
    if k0 = k then (k, v) :: rest else (k0, v0) :: setResult rest k v

def getJobResult (s : QueueState) (jobId : String) : Option JobResult :=
  (s.results.find? (fun kv => kv.1 = jobId)).map (fun kv => kv.2)

def mkJobId (now : Nat) (rand : String) : String :=
  "job-" ++ Nat.repr now ++ "-" ++ rand

/-- enqueue(type, payload): pushes a fresh job with attempts = 0,
maxAttempts = 3, startedAt and completedAt unset. -/
def enqueue (s : QueueState) (t : JobType) (p : JobPayload) (now : Nat) (rand : String) :
    QueueState × Job :=
  let job : Job :=
    { id := mkJobId now rand, type := t, payload := p, createdAt := now,
      attempts := 0, maxAttempts := 3 }
  ({ s with jobs := s.jobs ++ [job] }, job)

/-- next(): jobs.find((job) => !job.startedAt) — the first job in
insertion order whose startedAt is unset. Pure: no state change. -/
def nextJob (s : QueueState) : Option Job :=
  s.jobs.find? (fun job => job.startedAt.isNone)

/-- markCompleted(job, result): job.completedAt = Date.now();
results[job.id] = result. The job reference is the entry at index i. -/
def markCompleted (s : QueueState) (i : Nat) (result : JobResult) (now : Nat) : QueueState :=
  match s.jobs[i]? with
  | none => s
  | some job =>
    { s with
      jobs := s.jobs.set i { job with completedAt := some now },
      results := setResult s.results job.id result }

/-- list(): a snapshot copy of the jobs array, insertion order. -/
def listJobs (s : QueueState) : List Job :=
  s.jobs

/-! ### Worker loop (worker/src/index.ts)

`activeJobs` is the loop's local counter; jobsStarted/Completed/Failed
are the metrics counters. A tick's synchronous prefix (ceiling check,
next(), handler lookup, started transition) is `tickDispatch`; the
handler settling later is `settleSuccess` / `settleFailure` at the
dispatched job's index. -/

structure WorkerState where
  queue : QueueState
  activeJobs : Nat
  jobsStarted : Nat
  jobsCompleted : Nat
  jobsFailed : Nat
  deriving DecidableEq, Repr

/-- The tick up to dispatch: return unchanged when activeJobs is at the
ceiling, when no pending job exists, or when the job type has no
handler; otherwise set startedAt, bump activeJobs and jobsStarted. -/
def tickDispatch (hasHandler : JobType → Bool) (maxConcurrentJobs : Nat) (now : Nat)
    (s : WorkerState) : WorkerState :=
  if s.activeJobs ≥ maxConcurrentJobs then s
  else
    match s.queue.jobs.findIdx? (fun job => job.startedAt.isNone) with
    | none => s
    | some i =>
      match s.queue.jobs[i]? with
      | none => s
      | some job =>
        if hasHandler job.type then
          { s with
            queue := { s.queue with
              jobs := s.queue.jobs.set i { job with startedAt := some now } },
            activeJobs := s.activeJobs + 1,
            jobsStarted := s.jobsStarted + 1 }
        else s

/-- The try branch after the handler resolved: markCompleted, bump the
completed counter, and the finally block's activeJobs decrement. -/
def settleSuccess (s : WorkerState) (i : Nat) (result : JobResult) (now : Nat) : WorkerState :=
  { s with
    queue := markCompleted s.queue i result now,
    jobsCompleted := s.jobsCompleted + 1,
    activeJobs := s.activeJobs - 1 }

/-- The catch branch after the handler threw: job.attempts += 1, bump
the failed counter, and the finally block's activeJobs decrement. -/
def settleFailure (s : WorkerState) (i : Nat) : WorkerState :=
  match s.queue.jobs[i]? with
  | none => s
  | some job =>
    { s with
      queue := { s.queue with
        jobs := s.queue.jobs.set i { job with attempts := job.attempts + 1 } },
      jobsFailed := s.jobsFailed + 1,
      activeJobs := s.activeJobs - 1 }

/-- Number of jobs whose startedAt is set. -/
def startedCount (s : WorkerState) : Nat :=
  s.queue.jobs.countP (fun job => job.startedAt.isSome)

/-! ### Fork model and lineage (packages/shared-types/src/repo.ts) -/

inductive ForkType
  | unit09Instance
  | moduleVariant
  | experiment
  | archive
  deriving DecidableEq, Repr

structure ForkMetadata where
  forkKey : String
  parent : Option String := none
  label : String
  forkType : ForkType
  metadataUri : Option String := none
  tags : List String := []
  depth : Nat
  isRoot : Bool
  isActive : Bool
  createdAt : Nat
  updatedAt : Nat
  deriving DecidableEq, Repr

structure ForkLineage where
  rootForkKey : String
  path : List String
  deriving DecidableEq, Repr

/-- The comparator (a, b) => a.depth - b.depth as an ordering. -/
def depthLe (a b : ForkMetadata) : Prop :=
  a.depth ≤ b.depth

instance : DecidableRel depthLe :=
  fun a b => Nat.decLe a.depth b.depth

instance : IsTotal ForkMetadata depthLe :=
  ⟨fun a b => Nat.le_total a.depth b.depth⟩

instance : IsTrans ForkMetadata depthLe :=
  ⟨fun _ _ _ hab hbc => Nat.le_trans hab hbc⟩

/-- buildForkLineage(fork, ancestors): a stable sort of the ancestors by
depth (JS Array.prototype.sort is stable; insertionSort matches), path =
sorted keys ++ own key, root = sorted[0]?.forkKey ?? fork.forkKey. -/
def buildForkLineage (fork : ForkMetadata) (ancestors : List ForkMetadata) : ForkLineage :=
  let sorted := List.insertionSort depthLe ancestors
  { rootForkKey := ((sorted.head?).map ForkMetadata.forkKey).getD fork.forkKey,
    path := sorted.map ForkMetadata.forkKey ++ [fork.forkKey] }

/-! ### Repo tag normalization (packages/shared-types/src/repo.ts)

The JS builtins String.prototype.trim and String.prototype.toLowerCase
are modelled on the string's character list: trim drops whitespace from
both ends, toLowerCase lowers A..Z characterwise. -/

def isJsWhitespace (c : Char) : Bool :=
  c == ' ' || c == '\t' || c == '\n' || c == '\r'

def jsTrim (s : String) : String :=
  String.mk (((s.data.dropWhile isJsWhitespace).reverse.dropWhile isJsWhitespace).reverse)

def lowerChar (c : Char) : Char :=
  if 'A' ≤ c ∧ c ≤ 'Z' then Char.ofNat (c.toNat + 32) else c

def jsToLower (s : String) : String :=
  String.mk (s.data.map lowerChar)

/-- normalizeRepoTags(tags): empty result for undefined or empty input,
else map trim, drop empties, map toLowerCase. There is no
de-duplication step in the source. -/
def normalizeRepoTags (tags : Option (List String)) : List String :=
  match tags with
  | none => []
  | some ts =>
    if ts.length = 0 then []
    else ((ts.map (fun tag => jsTrim tag)).filter (fun tag => 0 < tag.length)).map
      (fun tag => jsToLower tag)

/-! ### Lifecycle summaries (packages/shared-types/src/metrics.ts) -/

inductive LifecycleStatus
  | created
  | observing
  | stable
  | degraded
  | error
  | archived
  deriving DecidableEq, Repr

inductive LifecycleEventKind
  | repoCreated
  | repoUpdated
  | moduleRegistered
  | moduleUpdated
  | forkCreated
  | forkUpdated
  | observationStarted
  | observationCompleted
  | metricsUpdated
  | error
  deriving DecidableEq, Repr

structure LifecycleSummary where
  createdAt : Nat
  lastActivityAt : Nat
  lastObservationAt : Option Nat := none
  lastErrorAt : Option Nat := none
  status : Option LifecycleStatus := none
  deriving DecidableEq, Repr

structure LifecycleEvent where
  id : String
  kind : LifecycleEventKind
  subjectType : String
  subjectKey : String
  message : String
  timestamp : Nat
  errorCode : Option String := none
  deriving DecidableEq, Repr

/-- applyLifecycleEvent: lastActivityAt becomes the max of the old value
and the event timestamp; observation events update lastObservationAt
(?? 0), error events update lastErrorAt and set status error, and a
still-unset status defaults to created. -/
def applyLifecycleEvent (summary : LifecycleSummary) (event : LifecycleEvent) :
    LifecycleSummary :=
  let next1 := { summary with lastActivityAt := max summary.lastActivityAt event.timestamp }
  let next2 :=
    if event.kind = LifecycleEventKind.observationStarted ∨
        event.kind = LifecycleEventKind.observationCompleted then
      { next1 with lastObservationAt := some (max (next1.lastObservationAt.getD 0) event.timestamp) }
    else next1
  let next3 :=
    if event.kind = LifecycleEventKind.error then
      { next2 with
        lastErrorAt := some (max (next2.lastErrorAt.getD 0) event.timestamp),
        status := some LifecycleStatus.error }
    else next2
  if next3.status = none then { next3 with status := some LifecycleStatus.created } else next3

/-! ### Semantic versions (packages/shared-types/src/metrics.ts) -/

abbrev SemanticVersionTuple := Nat × Nat × Nat

/-- compareSemanticVersion: the i = 0..2 loop comparing componentwise,
unrolled. -/
def compareSemanticVersion (a b : SemanticVersionTuple) : Int :=
  if a.1 < b.1 then -1
  else if b.1 < a.1 then 1
  else if a.2.1 < b.2.1 then -1
  else if b.2.1 < a.2.1 then 1
  else if a.2.2 < b.2.2 then -1
  else if b.2.2 < a.2.2 then 1
  else 0

inductive BumpPart
  | major
  | minor
  | patch
  deriving DecidableEq, Repr

def bumpSemanticVersion (version : SemanticVersionTuple) (part : BumpPart) :
    SemanticVersionTuple :=
  match part with
  | BumpPart.major => (version.1 + 1, 0, 0)
  | BumpPart.minor => (version.1, version.2.1 + 1, 0)
  | BumpPart.patch => (version.1, version.2.1, version.2.2 + 1)

/-! ### Global metrics JSON codec (packages/shared-types/src/metrics.ts)

The bigint counters are Int; toString()/BigInt(...) are modelled by a
decimal rendering and a decimal parser over the string's characters. -/

def digitChar : Nat → Char
  | 0 => '0'
  | 1 => '1'
  | 2 => '2'
  | 3 => '3'
  | 4 => '4'
  | 5 => '5'
  | 6 => '6'
  | 7 => '7'
  | 8 => '8'
  | _ => '9'

def digitVal : Char → Nat
  | '1' => 1
  | '2' => 2
  | '3' => 3
  | '4' => 4
  | '5' => 5
  | '6' => 6
  | '7' => 7
  | '8' => 8
  | '9' => 9
  | _ => 0

/-- Decimal digits of a natural number, most significant first. -/
def natDecimalDigits (n : Nat) : List Char :=
  if _h : n < 10 then [digitChar n]
  else natDecimalDigits (n / 10) ++ [digitChar (n % 10)]
  decreasing_by exact Nat.div_lt_self (by omega) (by omega)

def decimalValue (cs : List Char) : Nat :=
  cs.foldl (fun acc c => 10 * acc + digitVal c) 0

/-- BigInt.prototype.toString: sign then decimal digits. -/
def bigintToString (i : Int) : String :=
  if i < 0 then String.mk ('-' :: natDecimalDigits i.natAbs)
  else String.mk (natDecimalDigits i.natAbs)

/-- BigInt(string) on a canonical decimal rendering. -/
def parseBigInt (s : String) : Int :=
  match s.data with
  | '-' :: rest => - Int.ofNat (decimalValue rest)
  | cs => Int.ofNat (decimalValue cs)

structure GlobalMetricsSnapshot where
  totalRepos : Int
  totalModules : Int
  totalForks : Int
  totalObservations : Int
  totalLinesOfCode : Int
  totalFilesProcessed : Int
  deriving DecidableEq, Repr

structure GlobalMetricsSnapshotJson where
  totalRepos : String
  totalModules : String
  totalForks : String
  totalObservations : String
  totalLinesOfCode : String
  totalFilesProcessed : String
  deriving DecidableEq, Repr

def globalMetricsToJson (input : GlobalMetricsSnapshot) : GlobalMetricsSnapshotJson :=
  { totalRepos := bigintToString input.totalRepos,
    totalModules := bigintToString input.totalModules,
    totalForks := bigintToString input.totalForks,
    totalObservations := bigintToString input.totalObservations,
    totalLinesOfCode := bigintToString input.totalLinesOfCode,
    totalFilesProcessed := bigintToString input.totalFilesProcessed }

def globalMetricsFromJson (input : GlobalMetricsSnapshotJson) : GlobalMetricsSnapshot :=
  { totalRepos := parseBigInt input.totalRepos,
    totalModules := parseBigInt input.totalModules,
    totalForks := parseBigInt input.totalForks,
    totalObservations := parseBigInt input.totalObservations,
    totalLinesOfCode := parseBigInt input.totalLinesOfCode,
    totalFilesProcessed := parseBigInt input.totalFilesProcessed }

/-! ### Fork creation against the record store -/

inductive StorageError
  | alreadyExists
  | notFound
  | invalidKey
  deriving DecidableEq, Repr

abbrev ForkStore := List (String × ForkMetadata)

def lookupRecord : ForkStore → String → Option ForkMetadata
  | [], _ => none
  | (k0, r0) :: rest, k => if k0 = k then some r0 else lookupRecord rest k

/-- Modelled from the spec: the on-chain createFork instruction (its
Rust source is not in this repository; only its tests and SDK callers
are). The spec requires an atomic create-if-absent at the fork's
address: `createIfAbsent(address, record) -> ok | alreadyExists`, and
that a failed creation leaves the existing record unchanged. -/
def createForkOp (store : ForkStore) (forkKey : String) (record : ForkMetadata) :
    ForkStore × Option StorageError :=
  match lookupRecord store forkKey with
  | some _ => (store, some StorageError.alreadyExists)
  | none => (store ++ [(forkKey, record)], none)

/-! ### Concrete sample values used by witnesses and counterexamples -/

def exPayload : JobPayload :=
  { repoKey := "repo-1" }

def exResult : JobResult :=
  { success := true }

def exJob : Job :=
  { id := "job-1", type := JobType.observeRepo, payload := exPayload,
    createdAt := 1, attempts := 0, maxAttempts := 3 }

def exStartedJob : Job :=
  { exJob with id := "job-0", startedAt := some 2 }

def exQueue1 : QueueState :=
  { jobs := [exJob], results := [] }

def exStartedQueue : QueueState :=
  { jobs := [exStartedJob], results := [] }

def exHandlers : JobType → Bool :=
  fun _ => true

/-- Worker with one pending job and a free slot. -/
def exWorkerState : WorkerState :=
  { queue := exQueue1, activeJobs := 0, jobsStarted := 0, jobsCompleted := 0, jobsFailed := 0 }

/-- Worker with one pending job and all four slots taken. -/
def exFullWorkerState : WorkerState :=
  { queue := exQueue1, activeJobs := 4, jobsStarted := 4, jobsCompleted := 0, jobsFailed := 0 }

def exForkRoot : ForkMetadata :=
  { forkKey := "fork-root", parent := none, label := "root", forkType := ForkType.unit09Instance,
    depth := 0, isRoot := true, isActive := true, createdAt := 1, updatedAt := 1 }

def exForkA : ForkMetadata :=
  { exForkRoot with forkKey := "fork-a", parent := some "fork-root", depth := 1, isRoot := false }

def exForkB : ForkMetadata :=
  { exForkRoot with forkKey := "fork-b", parent := some "fork-a", depth := 2, isRoot := false }

/-! ### Helper lemmas -/

theorem lastActivityAt_applyLifecycleEvent (s : LifecycleSummary) (e : LifecycleEvent) :
    (applyLifecycleEvent s e).lastActivityAt = max s.lastActivityAt e.timestamp := by
  simp only [applyLifecycleEvent]
  split <;> split <;> split <;> rfl

theorem lookupRecord_append_self (store : ForkStore) (k : String) (r : ForkMetadata)
    (h : lookupRecord store k = none) :
    lookupRecord (store ++ [(k, r)]) k = some r := by
  induction store with
  | nil => simp [lookupRecord]
  | cons kv rest ih =>
    obtain ⟨k0, r0⟩ := kv
    by_cases hk : k0 = k
    · simp [lookupRecord, hk] at h
    · simp only [List.cons_append, lookupRecord, if_neg hk] at h ⊢
      exact ih h

theorem setResult_setResult (m : List (String × JobResult)) (k : String) (v : JobResult) :
    setResult (setResult m k v) k v = setResult m k v := by
  induction m with
  | nil => simp [setResult]
  | cons kv rest ih =>
    obtain ⟨k0, v0⟩ := kv
    by_cases hk : k0 = k
    · simp [setResult, hk]
    · simp [setResult, hk, ih]

theorem find?_setResult (m : List (String × JobResult)) (k : String) (v : JobResult) :
    (setResult m k v).find? (fun kv => kv.1 = k) = some (k, v) := by
  induction m with
  | nil => simp [setResult]
  | cons kv rest ih =>
    obtain ⟨k0, v0⟩ := kv
    by_cases hk : k0 = k
    · simp [setResult, hk]
    · simp [setResult, hk, ih, List.find?]

theorem find?_eq_head?_filter {α : Type} (p : α → Bool) (l : List α) :
    l.find? p = (l.filter p).head? := by
  induction l with
  | nil => rfl
  | cons x xs ih =>
    cases h : p x with
    | true => rw [List.find?_cons_of_pos _ h, List.filter_cons_of_pos h]; rfl
    | false =>
      rw [List.find?_cons_of_neg _ (by simp [h]), List.filter_cons_of_neg (by simp [h]), ih]

theorem digitVal_digitChar (d : Nat) (h : d < 10) : digitVal (digitChar d) = d := by
  interval_cases d <;> rfl

theorem decimalValue_append_digit (l : List Char) (c : Char) :
    decimalValue (l ++ [c]) = 10 * decimalValue l + digitVal c := by
  simp [decimalValue, List.foldl_append]

theorem decimalValue_natDecimalDigits (n : Nat) : decimalValue (natDecimalDigits n) = n := by
  induction n using Nat.strong_induction_on with
  | _ n ih =>
    unfold natDecimalDigits
    split
    · next h => simp [decimalValue, digitVal_digitChar n h]
    · next h =>
      rw [decimalValue_append_digit,
        ih (n / 10) (Nat.div_lt_self (by omega) (by omega)),
        digitVal_digitChar (n % 10) (Nat.mod_lt n (by omega))]
      omega

theorem natDecimalDigits_head (n : Nat) :
    ∃ d rest, natDecimalDigits n = digitChar d :: rest ∧ d < 10 := by
  induction n using Nat.strong_induction_on with
  | _ n ih =>
    unfold natDecimalDigits
    split
    · next h => exact ⟨n, [], rfl, h⟩
    · next h =>
      obtain ⟨d, rest, heq, hd⟩ := ih (n / 10) (Nat.div_lt_self (by omega) (by omega))
      exact ⟨d, rest ++ [digitChar (n % 10)], by rw [heq]; rfl, hd⟩

theorem digitChar_ne_minus (d : Nat) : digitChar d ≠ '-' := by
  unfold digitChar
  split <;> decide

theorem parseBigInt_bigintToString (i : Int) : parseBigInt (bigintToString i) = i := by
  obtain ⟨d, rest, heq, hd⟩ := natDecimalDigits_head i.natAbs
  unfold bigintToString
  split
  · next hneg =>
    unfold parseBigInt
    simp only [String.data]
    rw [decimalValue_natDecimalDigits]
    simp only [Int.ofNat_eq_natCast]
    omega
  · next hpos =>
    unfold parseBigInt
    simp only [String.data]
    rw [heq]
    split
    · next r heq2 =>
      exact absurd (List.head_eq_of_cons_eq heq2) (digitChar_ne_minus d)
    · rw [← heq, decimalValue_natDecimalDigits]
      simp only [Int.ofNat_eq_natCast]
      omega

theorem countP_set_le {α : Type} (p : α → Bool) (l : List α) (i : Nat) (a : α) :
    (l.set i a).countP p ≤ l.countP p + 1 := by
  induction l generalizing i with
  | nil => simp
  | cons x xs ih =>
    cases i with
    | zero =>
      simp only [List.set, List.countP_cons]
      split <;> split <;> omega
    | succ n =>
      simp only [List.set, List.countP_cons]
      have := ih n
      split <;> omega

/-- Case analysis on a tick: either nothing is dispatched and the state
is unchanged, or there is a free slot and exactly one job (at some index)
has its startedAt set while activeJobs and jobsStarted rise by one. -/
theorem tickDispatch_cases (hasHandler : JobType → Bool) (c now : Nat) (s : WorkerState) :
    tickDispatch hasHandler c now s = s ∨
    (s.activeJobs < c ∧ ∃ i job, s.queue.jobs[i]? = some job ∧
      tickDispatch hasHandler c now s =
        { s with
          queue := { s.queue with
            jobs := s.queue.jobs.set i { job with startedAt := some now } },
          activeJobs := s.activeJobs + 1,
          jobsStarted := s.jobsStarted + 1 }) := by
  unfold tickDispatch
  by_cases h : s.activeJobs ≥ c
  · rw [if_pos h]
    exact Or.inl rfl
  · rw [if_neg h]
    cases hfi : s.queue.jobs.findIdx? (fun job => job.startedAt.isNone) with
    | none => exact Or.inl rfl
    | some j =>
      dsimp only
      cases hj : s.queue.jobs[j]? with
      | none => exact Or.inl rfl
      | some job =>
        dsimp only
        by_cases hh : hasHandler job.type
        · rw [if_pos hh]
          exact Or.inr ⟨by omega, j, job, hj, rfl⟩
        · rw [if_neg hh]
          exact Or.inl rfl

/-! ### Claim theorems -/

/-- Claim C1: a tick with activeJobs at or above the concurrency ceiling
changes nothing (no startedAt set, no counter moved) even when pending
jobs exist; any tick starts at most one job; and the active count stays
at or under the ceiling across dispatch and both settlement steps. -/
theorem worker_tick_ceiling (hasHandler : JobType → Bool) (c now : Nat) (s : WorkerState)
    (i : Nat) (r : JobResult) (hc : s.activeJobs ≤ c) :
    (s.activeJobs ≥ c → tickDispatch hasHandler c now s = s) ∧
    startedCount (tickDispatch hasHandler c now s) ≤ startedCount s + 1 ∧
    (tickDispatch hasHandler c now s).activeJobs ≤ c ∧
    (settleFailure s i).activeJobs ≤ c ∧
    (settleSuccess s i r now).activeJobs ≤ c := by
  refine ⟨?_, ?_, ?_, ?_, ?_⟩
  · intro h
    unfold tickDispatch
    rw [if_pos h]
  · rcases tickDispatch_cases hasHandler c now s with heq | ⟨hlt, j, job, hj, heq⟩
    · rw [heq]
      omega
    · rw [heq]
      exact countP_set_le _ _ _ _
  · rcases tickDispatch_cases hasHandler c now s with heq | ⟨hlt, j, job, hj, heq⟩
    · rw [heq]
      exact hc
    · rw [heq]
      exact hlt
  · unfold settleFailure
    cases hj : s.queue.jobs[i]? with
    | none => exact hc
    | some job =>
      show s.activeJobs - 1 ≤ c
      omega
  · show s.activeJobs - 1 ≤ c
    omega

/-- Witness for C1: ceiling 4, four jobs active, one job pending — the
tick leaves the worker state untouched. -/
theorem worker_tick_ceiling_witness :
    tickDispatch exHandlers 4 9 exFullWorkerState = exFullWorkerState :=
  (worker_tick_ceiling exHandlers 4 9 exFullWorkerState 0 exResult (by decide)).1 (by decide)

/-- Claim C2: when the dispatched job's handler throws, attempts rises by
exactly one, completedAt is left as it was, markCompleted is not called
(results and the completed counter unchanged), the job is not re-enqueued
(queue length unchanged), the failed counter rises by one, and the active
count returns to its pre-dispatch value. -/
theorem worker_failure_path (hasHandler : JobType → Bool) (c now : Nat) (s : WorkerState)
    (i : Nat) (job : Job)
    (hlt : s.activeJobs < c)
    (hfind : s.queue.jobs.findIdx? (fun j => j.startedAt.isNone) = some i)
    (hjob : s.queue.jobs[i]? = some job)
    (hh : hasHandler job.type = true) :
    (settleFailure (tickDispatch hasHandler c now s) i).queue.jobs[i]? =
      some { job with startedAt := some now, attempts := job.attempts + 1 } ∧
    (settleFailure (tickDispatch hasHandler c now s) i).queue.results = s.queue.results ∧
    (settleFailure (tickDispatch hasHandler c now s) i).queue.jobs.length =
      s.queue.jobs.length ∧
    (settleFailure (tickDispatch hasHandler c now s) i).jobsFailed = s.jobsFailed + 1 ∧
    (settleFailure (tickDispatch hasHandler c now s) i).jobsCompleted = s.jobsCompleted ∧
    (settleFailure (tickDispatch hasHandler c now s) i).activeJobs = s.activeJobs := by
  have hilen : i < s.queue.jobs.length := (List.getElem?_eq_some.mp hjob).1
  have hdisp : tickDispatch hasHandler c now s =
      { s with
        queue := { s.queue with
          jobs := s.queue.jobs.set i { job with startedAt := some now } },
        activeJobs := s.activeJobs + 1,
        jobsStarted := s.jobsStarted + 1 } := by
    unfold tickDispatch
    rw [if_neg (by omega : ¬ s.activeJobs ≥ c), hfind]
    dsimp only
    rw [hjob]
    dsimp only
    rw [if_pos hh]
  have hset : (s.queue.jobs.set i { job with startedAt := some now })[i]? =
      some { job with startedAt := some now } := by
    simp [List.getElem?_set, hilen]
  have hfin : settleFailure (tickDispatch hasHandler c now s) i =
      { s with
        queue := { s.queue with
          jobs := s.queue.jobs.set i
            { job with startedAt := some now, attempts := job.attempts + 1 } },
        jobsFailed := s.jobsFailed + 1,
        jobsStarted := s.jobsStarted + 1,
        activeJobs := s.activeJobs + 1 - 1 } := by
    rw [hdisp]
    unfold settleFailure
    dsimp only
    rw [hset]
    simp [List.set_set]
  rw [hfin]
  refine ⟨?_, rfl, ?_, rfl, rfl, ?_⟩
  · simp [List.getElem?_set, hilen]
  · simp
  · show s.activeJobs + 1 - 1 = s.activeJobs
    omega

/-- Witness for C2 at the one-pending-job worker: dispatch at tick time 7
then fail; active returns to 0 and the failed counter reads 1. -/
theorem worker_failure_path_witness :
    (settleFailure (tickDispatch exHandlers 4 7 exWorkerState) 0).activeJobs =
      exWorkerState.activeJobs ∧
    (settleFailure (tickDispatch exHandlers 4 7 exWorkerState) 0).jobsFailed =
      exWorkerState.jobsFailed + 1 :=
  ⟨(worker_failure_path exHandlers 4 7 exWorkerState 0 exJob (by decide) (by decide)
      rfl rfl).2.2.2.2.2,
   (worker_failure_path exHandlers 4 7 exWorkerState 0 exJob (by decide) (by decide)
      rfl rfl).2.2.2.1⟩

/-- Claim C6: buildForkLineage sorts the ancestors ascending by depth,
returns path equal to the sorted ancestor keys followed by the fork's own
key, and returns as root key the depth-0 ancestor's key, or the fork's
own key when the ancestor list is empty. -/
theorem buildForkLineage_spec (fork : ForkMetadata) (ancestors : List ForkMetadata)
    (root : ForkMetadata) (hmem : root ∈ ancestors) (h0 : root.depth = 0)
    (huniq : ∀ a ∈ ancestors, a.depth = 0 → a = root) :
    (∃ sorted : List ForkMetadata, sorted.Perm ancestors ∧ List.Sorted depthLe sorted ∧
      (buildForkLineage fork ancestors).path =
        sorted.map ForkMetadata.forkKey ++ [fork.forkKey]) ∧
    (buildForkLineage fork ancestors).rootForkKey = root.forkKey ∧
    (∀ g : ForkMetadata,
      (buildForkLineage g []).rootForkKey = g.forkKey ∧
      (buildForkLineage g []).path = [g.forkKey]) := by
  refine ⟨⟨List.insertionSort depthLe ancestors, List.perm_insertionSort _ _,
    List.sorted_insertionSort _ _, rfl⟩, ?_, fun g => ⟨rfl, rfl⟩⟩
  have hperm := List.perm_insertionSort depthLe ancestors
  have hsorted := List.sorted_insertionSort depthLe ancestors
  cases hsort : List.insertionSort depthLe ancestors with
  | nil =>
    exfalso
    have hmem2 : root ∈ List.insertionSort depthLe ancestors := hperm.mem_iff.mpr hmem
    rw [hsort] at hmem2
    simp at hmem2
  | cons h tail =>
    have hmem_h : h ∈ ancestors := by
      refine hperm.subset ?_
      rw [hsort]
      exact List.mem_cons_self h tail
    have hroot_mem : root ∈ h :: tail := by
      rw [← hsort]
      exact hperm.mem_iff.mpr hmem
    rw [hsort] at hsorted
    have hle : h.depth ≤ root.depth := by
      rcases List.mem_cons.mp hroot_mem with heq | htail
      · rw [heq]
      · exact (List.sorted_cons.mp hsorted).1 root htail
    have hdepth_h : h.depth = 0 := by omega
    have heq : h = root := huniq h hmem_h hdepth_h
    simp [buildForkLineage, hsort, heq]

/-- Witness for C6 at the chain root(depth 0) → A(depth 1) → B(depth 2)
with ancestors [root, A] passed for fork B. -/
theorem buildForkLineage_spec_witness :
    (buildForkLineage exForkB [exForkRoot, exForkA]).rootForkKey = exForkRoot.forkKey ∧
    (buildForkLineage exForkB [exForkRoot, exForkA]).path =
      ["fork-root", "fork-a", "fork-b"] :=
  ⟨(buildForkLineage_spec exForkB [exForkRoot, exForkA] exForkRoot (by decide) (by decide)
      (by decide)).2.1,
   by decide⟩

/-- Claim C8: applyLifecycleEvent sets lastActivityAt to the maximum of the
previous lastActivityAt and the event timestamp, so lastActivityAt never
decreases under any sequence of applied events. -/
theorem applyLifecycleEvent_lastActivity_monotone (s : LifecycleSummary) (e : LifecycleEvent)
    (events : List LifecycleEvent) :
    (applyLifecycleEvent s e).lastActivityAt = max s.lastActivityAt e.timestamp ∧
    s.lastActivityAt ≤ (List.foldl applyLifecycleEvent s events).lastActivityAt := by
  refine ⟨lastActivityAt_applyLifecycleEvent s e, ?_⟩
  induction events generalizing s with
  | nil => exact Nat.le_refl _
  | cons e0 rest ih =>
    have h2 : s.lastActivityAt ≤ (applyLifecycleEvent s e0).lastActivityAt := by
      rw [lastActivityAt_applyLifecycleEvent]
      exact Nat.le_max_left _ _
    simpa using Nat.le_trans h2 (ih (applyLifecycleEvent s e0))

/-- Claim C9: semantic version comparison is lexicographic over
(major, minor, patch); the spec's concrete examples hold; and bumping any
part yields a strictly greater version, so the current version is
non-decreasing under version bumps. -/
theorem semanticVersion_compare_bump :
    compareSemanticVersion (1, 2, 3) (1, 3, 0) = -1 ∧
    compareSemanticVersion (1, 3, 0) (2, 0, 0) = -1 ∧
    bumpSemanticVersion (1, 2, 3) BumpPart.minor = (1, 3, 0) ∧
    (∀ a b : SemanticVersionTuple, compareSemanticVersion a b = -1 ↔
      (a.1 < b.1 ∨ (a.1 = b.1 ∧ (a.2.1 < b.2.1 ∨ (a.2.1 = b.2.1 ∧ a.2.2 < b.2.2))))) ∧
    (∀ (v : SemanticVersionTuple) (p : BumpPart),
      compareSemanticVersion v (bumpSemanticVersion v p) = -1) := by
  refine ⟨by decide, by decide, by decide, ?_, ?_⟩
  · intro a b
    unfold compareSemanticVersion
    split_ifs <;> simp <;> omega
  · intro v p
    cases p
    all_goals
      simp only [bumpSemanticVersion, compareSemanticVersion]
      split_ifs <;> omega

/-- Claim C5: creating a fork at an address that already holds a record
fails with AlreadyExists — the second createFork for the same key is
rejected — and the failed creation leaves the stored record unchanged. -/
theorem createFork_duplicate_alreadyExists (store : ForkStore) (k : String)
    (r1 r2 : ForkMetadata) (h : lookupRecord store k = none) :
    (createForkOp store k r1).2 = none ∧
    (createForkOp (createForkOp store k r1).1 k r2).2 = some StorageError.alreadyExists ∧
    (createForkOp (createForkOp store k r1).1 k r2).1 = (createForkOp store k r1).1 ∧
    lookupRecord (createForkOp (createForkOp store k r1).1 k r2).1 k = some r1 := by
  have hlk : lookupRecord (store ++ [(k, r1)]) k = some r1 :=
    lookupRecord_append_self store k r1 h
  simp [createForkOp, h, hlk]

/-- Witness for C5 at the empty store and the sample root fork record. -/
theorem createFork_duplicate_alreadyExists_witness :
    (createForkOp (createForkOp [] "fork-root" exForkRoot).1 "fork-root" exForkA).2 =
      some StorageError.alreadyExists ∧
    lookupRecord (createForkOp (createForkOp [] "fork-root" exForkRoot).1
      "fork-root" exForkA).1 "fork-root" = some exForkRoot :=
  ⟨(createFork_duplicate_alreadyExists [] "fork-root" exForkRoot exForkA rfl).2.1,
   (createFork_duplicate_alreadyExists [] "fork-root" exForkRoot exForkA rfl).2.2.2⟩

/-- Claim C10: serializing the six bigint counters to decimal strings and
parsing them back is the identity on global metrics snapshots. -/
theorem globalMetrics_roundTrip (s : GlobalMetricsSnapshot) :
    globalMetricsFromJson (globalMetricsToJson s) = s := by
  obtain ⟨a, b, c, d, e, f⟩ := s
  simp [globalMetricsToJson, globalMetricsFromJson, parseBigInt_bigintToString]

/-- Counterexample for C4: calling markCompleted twice with the same job
and result but at different clock readings (5 then 7) leaves a different
observable state — completedAt is refreshed by the second call. -/
theorem markCompleted_not_idempotent :
    markCompleted (markCompleted exQueue1 0 exResult 5) 0 exResult 7 ≠
      markCompleted exQueue1 0 exResult 5 := by
  decide

/-- Claim C4 amended: markCompleted sets the job's completedAt to the call
time and stores the result under the job id; a second call with the same
job and result leaves the stored results unchanged but refreshes
completedAt to the second call's time, so the full observable state is
identical after the second call exactly when it carries the same
timestamp as the first. -/
theorem markCompleted_amended (s : QueueState) (i : Nat) (r : JobResult) (t1 t2 : Nat)
    (job : Job) (hjob : s.jobs[i]? = some job) :
    (markCompleted s i r t1).jobs = s.jobs.set i { job with completedAt := some t1 } ∧
    getJobResult (markCompleted s i r t1) job.id = some r ∧
    (markCompleted (markCompleted s i r t1) i r t2).results = (markCompleted s i r t1).results ∧
    (markCompleted (markCompleted s i r t1) i r t2).jobs =
      s.jobs.set i { job with completedAt := some t2 } ∧
    markCompleted (markCompleted s i r t1) i r t1 = markCompleted s i r t1 := by
  have hilen : i < s.jobs.length := (List.getElem?_eq_some.mp hjob).1
  have h1 : markCompleted s i r t1 =
      { jobs := s.jobs.set i { job with completedAt := some t1 },
        results := setResult s.results job.id r } := by
    unfold markCompleted
    rw [hjob]
  have hjob2 : (s.jobs.set i { job with completedAt := some t1 })[i]? =
      some { job with completedAt := some t1 } := by
    simp [List.getElem?_set, hilen]
  have h2 : ∀ t' : Nat, markCompleted (markCompleted s i r t1) i r t' =
      { jobs := s.jobs.set i { job with completedAt := some t' },
        results := setResult (setResult s.results job.id r) job.id r } := by
    intro t'
    rw [h1]
    unfold markCompleted
    simp only [hjob2]
    simp [List.set_set]
  refine ⟨by rw [h1], ?_, ?_, ?_, ?_⟩
  · rw [h1]
    unfold getJobResult
    simp [find?_setResult]
  · rw [h2 t2, h1]
    simp [setResult_setResult]
  · rw [h2 t2]
  · rw [h2 t1, h1]
    simp [setResult_setResult]

/-- Witness for C4's amended statement at the sample one-job queue. -/
theorem markCompleted_amended_witness :
    getJobResult (markCompleted exQueue1 0 exResult 5) exJob.id = some exResult ∧
    markCompleted (markCompleted exQueue1 0 exResult 5) 0 exResult 5 =
      markCompleted exQueue1 0 exResult 5 :=
  ⟨(markCompleted_amended exQueue1 0 exResult 5 5 exJob rfl).2.1,
   (markCompleted_amended exQueue1 0 exResult 5 5 exJob rfl).2.2.2.2⟩

/-- Claim C3: enqueue appends a fresh job with attempts 0 and startedAt
unset and touches nothing else; next() returns the oldest job whose
startedAt is unset (the head of the pending ones in insertion order) and,
being pure, modifies no job; list() is the insertion-order snapshot. A
job enqueued into a queue whose other jobs are all started appears in
list() with startedAt unset and is the value next() returns. -/
theorem queue_enqueue_next_spec (s : QueueState) (t : JobType) (p : JobPayload)
    (now : Nat) (rand : String)
    (hall : ∀ job ∈ s.jobs, job.startedAt.isSome = true) :
    ((enqueue s t p now rand).2.attempts = 0 ∧
     (enqueue s t p now rand).2.startedAt = none ∧
     (enqueue s t p now rand).2.completedAt = none ∧
     (enqueue s t p now rand).2.type = t ∧
     (enqueue s t p now rand).2.payload = p ∧
     (enqueue s t p now rand).1.jobs = s.jobs ++ [(enqueue s t p now rand).2] ∧
     (enqueue s t p now rand).1.results = s.results) ∧
    (∀ q : QueueState, nextJob q = (q.jobs.filter (fun job => job.startedAt.isNone)).head? ∧
      listJobs q = q.jobs) ∧
    ((enqueue s t p now rand).2 ∈ listJobs (enqueue s t p now rand).1 ∧
     nextJob (enqueue s t p now rand).1 = some (enqueue s t p now rand).2) := by
  refine ⟨⟨rfl, rfl, rfl, rfl, rfl, rfl, rfl⟩,
    fun q => ⟨find?_eq_head?_filter _ _, rfl⟩, ?_, ?_⟩
  · simp [enqueue, listJobs]
  · have hnone : (s.jobs.find? fun job => job.startedAt.isNone) = none := by
      rw [List.find?_eq_none]
      intro job hj
      have hsome := hall job hj
      cases hstart : job.startedAt <;> simp_all
    simp [nextJob, enqueue, List.find?_append, hnone]

/-- Witness for C3: enqueue into the sample queue whose only job is
already started. -/
theorem queue_enqueue_next_spec_witness :
    (enqueue exStartedQueue JobType.observeRepo exPayload 5 "r1").2 ∈
      listJobs (enqueue exStartedQueue JobType.observeRepo exPayload 5 "r1").1 ∧
    nextJob (enqueue exStartedQueue JobType.observeRepo exPayload 5 "r1").1 =
      some (enqueue exStartedQueue JobType.observeRepo exPayload 5 "r1").2 :=
  (queue_enqueue_next_spec exStartedQueue JobType.observeRepo exPayload 5 "r1"
    (by decide)).2.2

/-- Counterexample for C7: two equal input tags survive normalization, so
the output is not de-duplicated. -/
theorem normalizeRepoTags_not_deduplicated :
    normalizeRepoTags (some ["x", "x"]) = ["x", "x"] ∧
    ¬ (normalizeRepoTags (some ["x", "x"])).Nodup :=
  ⟨by decide, by decide⟩

/-- Claim C7 amended: every output tag is the trimmed, lower-cased form of
some non-blank input tag, and every non-blank input tag contributes its
trimmed, lower-cased form to the output; duplicates are preserved (the
source has no de-duplication step). -/
theorem normalizeRepoTags_amended (tags : List String) :
    (∀ t ∈ normalizeRepoTags (some tags),
      ∃ s ∈ tags, 0 < (jsTrim s).length ∧ t = jsToLower (jsTrim s)) ∧
    (∀ s ∈ tags, 0 < (jsTrim s).length → jsToLower (jsTrim s) ∈ normalizeRepoTags (some tags)) := by
  by_cases h0 : tags.length = 0
  · have hnil : tags = [] := List.length_eq_zero.mp h0
    subst hnil
    exact ⟨by intro t ht; simp [normalizeRepoTags] at ht, by intro s hs; simp at hs⟩
  · constructor
    · intro t ht
      simp only [normalizeRepoTags, if_neg h0, List.mem_map, List.mem_filter] at ht
      obtain ⟨u, ⟨hu, hlen⟩, rfl⟩ := ht
      obtain ⟨s, hs, rfl⟩ := hu
      exact ⟨s, hs, by simpa using hlen, rfl⟩
    · intro s hs hlen
      simp only [normalizeRepoTags, if_neg h0, List.mem_map, List.mem_filter]
      exact ⟨jsTrim s, ⟨⟨s, hs, rfl⟩, by simpa using hlen⟩, rfl⟩

end Unit09
